import Mathlib

/-!
Verification development for the configuration envelope codec of the
amethyst-lighting-controller firmware (`src/config.py`, class `EnvelopeConfig`).

The program is MicroPython running on an RP2040 (little-endian, 32-bit).
The shallow embedding below models:

* byte buffers as `List Nat` (each element a byte value),
* MicroPython `str` values by their internal UTF-8 byte sequence
  (`len(s)` counts code points, modelled by `pyStrLen`; `bytes.decode`
  validates UTF-8 on the rp2 port — `MICROPY_PY_BUILTINS_STR_UNICODE_CHECK` —
  modelled by `utf8Check`, and is otherwise a byte-preserving cast),
* `FileIO.read(n)` as `fread`: it returns up to `n` bytes from the current
  position and advances the position by the number of bytes returned,
* `array` objects as `PyArray` (a typecode byte plus stored elements;
  MicroPython `array.append` masks the value to the element size),
* exceptions as explicit error results: `ConfigError`, `IndexError`,
  `UnicodeError` and the `ValueError` from `array(tag)` become the
  constructors of `ConfigReadError`.
-/

/-- Model of `int.from_bytes(bs, "little")` (RP2040 `sys.byteorder` is little). -/
def fromBytesLE : List Nat → Nat
  | [] => 0
  | b :: bs => b + 256 * fromBytesLE bs

/-- Model of `v.to_bytes(n, "little")` restricted to values that fit
(callers guard the range; MicroPython raises `OverflowError` otherwise). -/
def toBytesLE : Nat → Nat → List Nat
  | 0, _ => []
  | n + 1, v => v % 256 :: toBytesLE n (v / 256)

/-- Model of `file.read(n)` on a buffer with an explicit position: returns the
next at most `n` bytes and the advanced position (short reads happen at EOF). -/
def fread (buf : List Nat) (pos n : Nat) : List Nat × Nat :=
  let r := (buf.drop pos).take n
  (r, pos + r.length)

/-- Model of MicroPython `len(s)` for a `str` held as UTF-8 bytes: code points
are counted by skipping UTF-8 continuation bytes (values `0x80..0xBF`). -/
def pyStrLen (s : List Nat) : Nat :=
  (s.filter fun b => decide (b < 128) || decide (192 ≤ b)).length

/-- Model of MicroPython's `utf8_check` used by `bytes.decode("utf-8")` on the
rp2 port: a lead byte `0xC0..0xDF` needs 1 continuation byte, `0xE0..0xEF`
needs 2, `0xF0..0xF7` needs 3, `0xF8..` is invalid, and a bare continuation
byte is invalid. The accumulator is the number of continuations still owed. -/
def utf8Check : List Nat → Nat → Bool
  | [], need => need == 0
  | c :: rest, need =>
    if 0 < need then
      if 128 ≤ c ∧ c < 192 then utf8Check rest (need - 1) else false
    else if 248 ≤ c then false
    else if 240 ≤ c then utf8Check rest 3
    else if 224 ≤ c then utf8Check rest 2
    else if 192 ≤ c then utf8Check rest 1
    else if 128 ≤ c then false
    else utf8Check rest 0

/-- Model of a MicroPython `array` object: its typecode character (as a byte)
and its stored cells as integers. For the typecodes whose `append` stores the
integer value (see `intStoreTypecode`) a cell is exactly the appended value
masked to the element size; for `f`/`d` the source stores a converted float
and for `S` an unwritten cell, so for those typecodes `items` is a
placeholder whose element values no theorem asserts. -/
structure PyArray where
  typecode : Nat
  items : List Nat
deriving DecidableEq, Repr

/-- Element sizes of the typecodes accepted by MicroPython's `array`
constructor, per `mp_binary_get_size` on a 32-bit port: the internal
bytearray code 0x01 and `b B` (1 byte), `h H` (2), `i I l L f` (4), the
pointer/object codes `P O S` (`sizeof(void*)` = 4 on RP2040), and `q Q d`
(8); `none` models the `ValueError` raised by `array(tag)` for any other
character. -/
def typecodeSize (c : Nat) : Option Nat :=
  if c = 1 ∨ c = 98 ∨ c = 66 then some 1    -- bytearray code, b, B
  else if c = 104 ∨ c = 72 then some 2      -- h H
  else if c = 105 ∨ c = 73 ∨ c = 108 ∨ c = 76 ∨ c = 102 then some 4  -- i I l L f
  else if c = 80 ∨ c = 79 ∨ c = 83 then some 4  -- P O S
  else if c = 113 ∨ c = 81 ∨ c = 100 then some 8  -- q Q d
  else none

/-- The typecodes for which MicroPython's `array.append` stores the integer
value itself into the cell, masked to the element size: the bytearray code
and `b B h H i I l L q Q` via `mp_binary_set_val_array_from_int`, plus `P`
(stored as a pointer-sized, i.e. 32-bit, integer) and `O` (the value object
itself; exact here because each decoded element is below `2^32`). For these
the model's `items` match the program's cells exactly. -/
def intStoreTypecode (c : Nat) : Bool :=
  c == 1 || c == 98 || c == 66 || c == 104 || c == 72 || c == 105 || c == 73 ||
  c == 108 || c == 76 || c == 113 || c == 81 || c == 80 || c == 79

/-- The in-memory configuration state of `EnvelopeConfig.__init__`
(`config_file` is a path, modelled separately by the `FlashFS` state;
the class-level constants carry no envelope data). Strings are held as
their UTF-8 bytes, `bytearray` fields as byte lists, and the `array("L")`
field as a `PyArray`. -/
structure EnvelopeConfig where
  name : List Nat
  cfg_version : Nat
  freq : Nat
  pwmMap : List Nat
  tachMap : List Nat
  pwmNames : List (List Nat)
  pwmDutyCycles : List Nat
  i2cSettings : PyArray
  inaSettings : List Nat
  adsSettings : List Nat
deriving DecidableEq, Repr

/-- The defaults assigned in `EnvelopeConfig.__init__` ("sane defaults based
on Amethyst"): name `"Amethyst"`, version 0, frequency 133 MHz, pin maps,
channel names `"FAN 1".."Spare"`, duty cycles, `array("L", (1, 27, 26,
400000))`, and the INA3221/ADS1115 addresses. -/
def defaultConfig : EnvelopeConfig where
  name := [65, 109, 101, 116, 104, 121, 115, 116]
  cfg_version := 0
  freq := 133000000
  pwmMap := [0, 2, 4, 6, 8, 10]
  tachMap := [1, 3, 5, 7, 9, 11]
  pwmNames := [[70, 65, 78, 32, 49], [70, 65, 78, 32, 50], [70, 65, 78, 32, 51],
               [70, 65, 78, 32, 52], [80, 117, 109, 112], [83, 112, 97, 114, 101]]
  pwmDutyCycles := [100, 100, 100, 100, 100, 100]
  i2cSettings := ⟨76, [1, 27, 26, 400000]⟩
  inaSettings := [64]
  adsSettings := [72]

/-- The exceptions that can escape `EnvelopeConfig.fromFlash` (only `OSError`
is caught there): `badHeader`, `versionMismatch` and `badFooter` are the
`ConfigError` raises; `indexError` is the `IndexError` from indexing a short
`header`; `unicodeError` is the `UnicodeError` from `bytes.decode` on invalid
UTF-8; `badTypecode` models the error raised by `array(tag)` for a tag byte
that is not a valid typecode (a `ValueError`, or a `UnicodeError` when the
tag byte is not ASCII or the read came back empty). -/
inductive ConfigReadError where
  | badHeader
  | indexError
  | versionMismatch
  | unicodeError
  | badTypecode
  | badFooter
deriving DecidableEq, Repr

/-- Model of `EnvelopeConfig._read_bytearray`: a 1-byte length then that many
bytes (no validation; short reads at EOF simply return fewer bytes). -/
def read_bytearray (buf : List Nat) (pos : Nat) : List Nat × Nat :=
  let szp := fread buf pos 1
  fread buf szp.2 (fromBytesLE szp.1)

/-- Model of `EnvelopeConfig._read_str`: a 1-byte length then that many bytes,
decoded as UTF-8 (`none` models the `UnicodeError` on invalid UTF-8). -/
def read_str (buf : List Nat) (pos : Nat) : Option (List Nat × Nat) :=
  let szp := fread buf pos 1
  let dp := fread buf szp.2 (fromBytesLE szp.1)
  if utf8Check dp.1 0 then some dp else none

/-- The element loop of `EnvelopeConfig._read_str_list` (the generator is
forced by `list(...)` before the method returns, so it is an eager loop). -/
def read_str_items (buf : List Nat) : Nat → Nat → Option (List (List Nat) × Nat)
  | 0, pos => some ([], pos)
  | n + 1, pos =>
    match read_str buf pos with
    | none => none
    | some sp =>
      match read_str_items buf n sp.2 with
      | none => none
      | some rp => some (sp.1 :: rp.1, rp.2)

/-- Model of `EnvelopeConfig._read_str_list`: a 1-byte element count, then
that many length-prefixed strings. -/
def read_str_list (buf : List Nat) (pos : Nat) : Option (List (List Nat) × Nat) :=
  let cp := fread buf pos 1
  read_str_items buf (fromBytesLE cp.1) cp.2

/-- The element loop of `EnvelopeConfig._read_array`: each element is read as
4 bytes and appended. The cell is recorded as the value masked to the element
size `sz`, which is what MicroPython `array.append` stores for every typecode
in `intStoreTypecode`; for `f`/`d`/`S` the recorded number is only a
placeholder (the source stores a converted float, or nothing) and no theorem
asserts those cells' values. -/
def read_array_items (buf : List Nat) (sz : Nat) : Nat → Nat → List Nat × Nat
  | 0, pos => ([], pos)
  | n + 1, pos =>
    let ep := fread buf pos 4
    let rp := read_array_items buf sz n ep.2
    (fromBytesLE ep.1 % 256 ^ sz :: rp.1, rp.2)

/-- Model of `EnvelopeConfig._read_array`: a 2-byte element count, a 1-byte
typecode character fed to `array(...)`, then `count` elements of 4 bytes
each. `none` models the exception from `array(tag)` when the tag byte is not
a valid typecode (including an empty read at EOF, where `array("")` raises). -/
def read_array (buf : List Nat) (pos : Nat) : Option (PyArray × Nat) :=
  let lp := fread buf pos 2
  let tp := fread buf lp.2 1
  match tp.1 with
  | [c] =>
    match typecodeSize c with
    | some sz =>
      let ip := read_array_items buf sz (fromBytesLE lp.1) tp.2
      some (⟨c, ip.1⟩, ip.2)
    | none => none
  | _ => none

/-- Model of the body of `EnvelopeConfig.fromFlash` on the opened file's
contents. It mutates `self` field-by-field exactly as the source does, so a
failure returns the partially updated store together with the escaping
exception. The header check compares only bytes 0-1 against `CONFIG_HEADER`;
formatting its error message indexes `header[2]`, and the success path
indexes `header[3]`, so a short header raises `IndexError` instead. -/
def fromFlashBytes (self : EnvelopeConfig) (buf : List Nat) :
    EnvelopeConfig × Option ConfigReadError :=
  let hp := fread buf 0 4
  let header := hp.1
  if header.take 2 ≠ [146, 0] then
    (self, some (if header.length < 3 then ConfigReadError.indexError else ConfigReadError.badHeader))
  else if header.length < 4 then
    (self, some ConfigReadError.indexError)
  else
    let self := { self with cfg_version := header.getD 3 0 }
    if self.cfg_version ≠ 2 then (self, some ConfigReadError.versionMismatch)
    else
      let fp := fread buf hp.2 4
      let self := { self with freq := fromBytesLE fp.1 }
      match read_str buf fp.2 with
      | none => (self, some ConfigReadError.unicodeError)
      | some np =>
        let self := { self with name := np.1 }
        let pp := read_bytearray buf np.2
        let self := { self with pwmMap := pp.1 }
        let tp := read_bytearray buf pp.2
        let self := { self with tachMap := tp.1 }
        let dp := read_bytearray buf tp.2
        let self := { self with pwmDutyCycles := dp.1 }
        match read_str_list buf dp.2 with
        | none => (self, some ConfigReadError.unicodeError)
        | some lp =>
          let self := { self with pwmNames := lp.1 }
          let ip := read_bytearray buf lp.2
          let self := { self with inaSettings := ip.1 }
          match read_array buf ip.2 with
          | none => (self, some ConfigReadError.badTypecode)
          | some ap =>
            let self := { self with i2cSettings := ap.1 }
            let sp := read_bytearray buf ap.2
            let self := { self with adsSettings := sp.1 }
            let ftp := fread buf sp.2 3
            if ftp.1 ≠ [0, 0, 66] then
              (self, some (if utf8Check ftp.1 0 then ConfigReadError.badFooter
                           else ConfigReadError.unicodeError))
            else (self, none)

/-- The storage states `open(self.config_file, "rb")` can encounter. -/
inductive FileState where
  | absent
  | unreadable
  | present (content : List Nat)

/-- Model of the whole `EnvelopeConfig.fromFlash` method: the `try/except
OSError: pass` swallows only the `OSError` from an absent or unreadable file;
every exception raised while parsing a present file escapes to the caller
(returned here as `some e`), with the store keeping any fields already
assigned. -/
def fromFlash (self : EnvelopeConfig) (fs : FileState) :
    EnvelopeConfig × Option ConfigReadError :=
  match fs with
  | .absent => (self, none)
  | .unreadable => (self, none)
  | .present content => fromFlashBytes self content

/-- Model of `EnvelopeConfig._savable_bytearray`: the length (1 byte)
prepended to the data; `none` models the `OverflowError` from
`len(data).to_bytes(1, ...)` when the data is longer than 255 bytes. -/
def savable_bytearray (d : List Nat) : Option (List Nat) :=
  if d.length ≤ 255 then some (d.length :: d) else none

/-- Model of `EnvelopeConfig._savable_str`: the *character* count of the
string (`len(data)`, modelled by `pyStrLen`) prepended to its UTF-8 bytes;
`none` models the `ValueError` from `bytearray((len(data),))` when the
character count exceeds 255. -/
def savable_str (s : List Nat) : Option (List Nat) :=
  if pyStrLen s ≤ 255 then some (pyStrLen s :: s) else none

/-- The per-element bytes written by `EnvelopeConfig._savable_str_list`:
each element's character count (1 byte) followed by its UTF-8 bytes. -/
def strListPayload (l : List (List Nat)) : List Nat :=
  l.foldr (fun s acc => (pyStrLen s :: s) ++ acc) []

/-- Model of `EnvelopeConfig._savable_str_list`: the element count (1 byte)
then each element length-prefixed; `none` models the `ValueError` from
building a 1-byte count for a list or an element that is too long. -/
def savable_str_list (l : List (List Nat)) : Option (List Nat) :=
  if l.length ≤ 255 && l.all (fun s => pyStrLen s ≤ 255) then
    some (l.length :: strListPayload l)
  else none

/-- The element bytes written by `EnvelopeConfig._savable_array`:
`struct.pack("L", element)` packs each element as 4 little-endian bytes
(native unsigned long on the 32-bit port, masked to 32 bits). -/
def arrayItemsBytes (items : List Nat) : List Nat :=
  items.foldr (fun v acc => toBytesLE 4 v ++ acc) []

/-- Model of `EnvelopeConfig._savable_array`: a 2-byte element count, the
literal typecode character `"L"` (byte 76, written regardless of the array's
own typecode), then the packed elements; `none` models the `OverflowError`
from `len(data).to_bytes(2, ...)` when there are more than 65535 elements. -/
def savable_array (a : PyArray) : Option (List Nat) :=
  if a.items.length ≤ 65535 then
    some (toBytesLE 2 a.items.length ++ [76] ++ arrayItemsBytes a.items)
  else none

/-- Model of the byte sequence written by `EnvelopeConfig.toFlash` to the
`.new` file: `CONFIG_HEADER` (3 bytes `0x92 0x00 0x00`), the constant
`ENVELOPE_CONFIG_VER = 2` (1 byte; the stored `cfg_version` is *not*
written), the frequency (4 bytes little-endian, guarded to 32 bits), then the
length-prefixed fields in write order, then `CONFIG_FOOTER`
(`0x00 0x00 0x42`). `none` models an exception escaping the write. -/
def toFlashBytes (c : EnvelopeConfig) : Option (List Nat) := do
  let freqB ← if c.freq ≤ 4294967295 then some (toBytesLE 4 c.freq) else none
  let nameB ← savable_str c.name
  let pwmB ← savable_bytearray c.pwmMap
  let tachB ← savable_bytearray c.tachMap
  let dutyB ← savable_bytearray c.pwmDutyCycles
  let namesB ← savable_str_list c.pwmNames
  let inaB ← savable_bytearray c.inaSettings
  let i2cB ← savable_array c.i2cSettings
  let adsB ← savable_bytearray c.adsSettings
  some ([146, 0, 0] ++ [2] ++ freqB ++ nameB ++ pwmB ++ tachB ++ dutyB ++
        namesB ++ inaB ++ i2cB ++ adsB ++ [0, 0, 66])

/-- The header-through-fields region of an encoded envelope (everything
except the 3 footer bytes), with the reserved byte at offset 2 generalized to
`rb`; `toFlashBytes` always writes `rb = 0`. Used to state how decoding
treats buffers that agree with an encoded store on all non-reserved bytes. -/
def encFieldsFrom (rb : Nat) (c : EnvelopeConfig) : List Nat :=
  [146, 0, rb, 2] ++ toBytesLE 4 c.freq ++ (pyStrLen c.name :: c.name) ++
  (c.pwmMap.length :: c.pwmMap) ++ (c.tachMap.length :: c.tachMap) ++
  (c.pwmDutyCycles.length :: c.pwmDutyCycles) ++
  (c.pwmNames.length :: strListPayload c.pwmNames) ++
  (c.inaSettings.length :: c.inaSettings) ++
  (toBytesLE 2 c.i2cSettings.items.length ++ [76] ++ arrayItemsBytes c.i2cSettings.items) ++
  (c.adsSettings.length :: c.adsSettings)

/-- Validity of a store state, as assumed by the spec's round-trip claims:
every length-prefixed field fits its 1-byte length, the channel-name list
fits its 1-byte count, strings are ASCII (so MicroPython's character count
equals the UTF-8 byte count and decode's UTF-8 check passes), the bus
settings array has the unsigned-32-bit typecode `L` with at most 65535
elements, and frequency and bus values fit in 32 bits. -/
def ValidStore (c : EnvelopeConfig) : Prop :=
  c.freq ≤ 4294967295 ∧
  c.name.length ≤ 255 ∧ (∀ b ∈ c.name, b < 128) ∧
  c.pwmMap.length ≤ 255 ∧ c.tachMap.length ≤ 255 ∧ c.pwmDutyCycles.length ≤ 255 ∧
  c.pwmNames.length ≤ 255 ∧ (∀ s ∈ c.pwmNames, s.length ≤ 255 ∧ ∀ b ∈ s, b < 128) ∧
  c.inaSettings.length ≤ 255 ∧ c.adsSettings.length ≤ 255 ∧
  c.i2cSettings.typecode = 76 ∧ c.i2cSettings.items.length ≤ 65535 ∧
  (∀ v ∈ c.i2cSettings.items, v ≤ 4294967295)

instance (c : EnvelopeConfig) : Decidable (ValidStore c) := by
  unfold ValidStore; infer_instance

/-- The three file paths touched by `EnvelopeConfig.toFlash`:
`self.config_file` (canonical), `self.config_file + ".new"` (temporary) and
`self.config_file + ".old"` (backup). Each holds its content when present. -/
structure FlashFS where
  canonical : Option (List Nat)
  newFile : Option (List Nat)
  oldFile : Option (List Nat)
deriving DecidableEq, Repr

/-- The filesystem after `toFlash`'s `with open(f"...new", "wb")` block has
written `enc` and closed the file (the canonical path is not named by any
write). -/
def afterWriteTemp (enc : List Nat) (fs : FlashFS) : FlashFS :=
  { fs with newFile := some enc }

/-- The filesystem after `os.rename(self.config_file, f"....old")` inside
`try/except OSError: pass`: when the canonical file exists it moves to the
backup path; when it does not, the `OSError` is swallowed and nothing
changes. -/
def afterBackupRename (fs : FlashFS) : FlashFS :=
  match fs.canonical with
  | none => fs
  | some c => { fs with canonical := none, oldFile := some c }

/-- The filesystem after `os.rename(f"....new", self.config_file)`: the
temporary file moves onto the canonical path (`none` models the `OSError`
when the temporary file is missing, which `toFlash` does not catch). -/
def afterFinalRename (fs : FlashFS) : Option FlashFS :=
  match fs.newFile with
  | none => none
  | some n => some { fs with canonical := some n, newFile := none }

/-- The filesystem after the temporary-file write inside `toFlash` raises an
`OSError` (for example, medium full) having written only `written` bytes: the
`.new` file holds the prefix, and because no statement before the two
`os.rename` calls names the canonical or backup paths — and no handler
catches the error — those paths are untouched and the exception escapes to
`toFlash`'s caller. -/
def toFlashWriteInterrupted (fs : FlashFS) (written : List Nat) : FlashFS :=
  { fs with newFile := some written }

/-- Flip bit `bit` of the byte at index `byte` of a buffer. -/
def flipBitAt (l : List Nat) (byte bit : Nat) : List Nat :=
  l.set byte (l.getD byte 0 ^^^ 2 ^ bit)

/-- A valid store whose bus-settings array carries a value above `2^31`
(3000000000), exercising the unsigned-range part of the round-trip claim. -/
def bigBusStore : EnvelopeConfig :=
  { defaultConfig with i2cSettings := ⟨76, [1, 27, 26, 3000000000]⟩ }

/-- A store whose name is the single character `"é"` (UTF-8 bytes
`0xC3 0xA9`): `len(name) = 1` but the name occupies 2 bytes, so the encoded
length byte undercounts and decode misparses the envelope. -/
def accentStore : EnvelopeConfig :=
  { defaultConfig with name := [195, 169] }

/-- A store that differs from `defaultConfig` in every serialized field, used
as the pre-decode state when checking that decoding really reproduces each
field from the buffer rather than keeping prior values. -/
def blankStore : EnvelopeConfig where
  name := []
  cfg_version := 7
  freq := 0
  pwmMap := []
  tachMap := []
  pwmNames := []
  pwmDutyCycles := []
  i2cSettings := ⟨66, []⟩
  inaSettings := []
  adsSettings := []

/-! Helper lemmas about the byte-level primitives. -/

theorem toBytesLE_length (n v : Nat) : (toBytesLE n v).length = n := by
  induction n generalizing v with
  | zero => rfl
  | succ n ih => simp [toBytesLE, ih]

theorem fromBytesLE_toBytesLE (n v : Nat) :
    fromBytesLE (toBytesLE n v) = v % 256 ^ n := by
  induction n generalizing v with
  | zero => simp [toBytesLE, fromBytesLE, Nat.mod_one]
  | succ n ih =>
    simp only [toBytesLE, fromBytesLE, ih]
    rw [pow_succ, mul_comm (256 ^ n) 256, Nat.mod_mul]

theorem fromBytesLE_single (b : Nat) : fromBytesLE [b] = b := by
  simp [fromBytesLE]

theorem pyStrLen_ascii (s : List Nat) (h : ∀ b ∈ s, b < 128) :
    pyStrLen s = s.length := by
  unfold pyStrLen
  rw [List.filter_eq_self.mpr]
  intro b hb
  simp [h b hb]

theorem utf8Check_ascii (s : List Nat) (h : ∀ b ∈ s, b < 128) :
    utf8Check s 0 = true := by
  induction s with
  | nil => rfl
  | cons b t ih =>
    have hb := h b (by simp)
    have ht := ih fun x hx => h x (by simp [hx])
    unfold utf8Check
    have h1 : ¬ 248 ≤ b := by omega
    have h2 : ¬ 240 ≤ b := by omega
    have h3 : ¬ 224 ≤ b := by omega
    have h4 : ¬ 192 ≤ b := by omega
    have h5 : ¬ 128 ≤ b := by omega
    simp [h1, h2, h3, h4, h5, ht]

theorem set_append_right (A B : List Nat) (m v : Nat) :
    (A ++ B).set (A.length + m) v = A ++ B.set m v := by
  induction A with
  | nil => simp
  | cons a t ih => simp [Nat.succ_add, ih]

theorem fread_step (buf A D R : List Nat) (p n : Nat)
    (hb : buf = A ++ D ++ R) (hp : p = A.length) (hn : D.length = n) :
    fread buf p n = (D, p + n) := by
  subst hb hp hn
  simp only [fread, List.append_assoc, List.drop_left, List.take_left]

theorem fread_eof (buf : List Nat) (p n : Nat) (h : buf.length ≤ p) :
    fread buf p n = ([], p) := by
  simp [fread, List.drop_eq_nil_of_le h]

theorem fread_snd (buf : List Nat) (p n : Nat) (h : p ≤ buf.length) :
    (fread buf p n).2 = min (p + n) buf.length := by
  simp only [fread, List.length_take, List.length_drop]
  omega

/-! Exact-parse lemmas: each reader, applied at the start of its encoded
payload inside a larger buffer, returns the encoded value and lands exactly
after the payload. The suffix `R` is arbitrary, so the same lemmas serve the
round-trip, the reserved-byte, the footer-corruption and the truncation
arguments. -/

theorem read_bytearray_step (buf A d R : List Nat) (p : Nat)
    (hb : buf = A ++ (d.length :: d) ++ R) (hp : p = A.length) :
    read_bytearray buf p = (d, p + 1 + d.length) := by
  have h1 : fread buf p 1 = ([d.length], p + 1) :=
    fread_step buf A [d.length] (d ++ R) p 1 (by simp [hb]) hp rfl
  have h2 : fread buf (p + 1) d.length = (d, p + 1 + d.length) :=
    fread_step buf (A ++ [d.length]) d R (p + 1) d.length (by simp [hb])
      (by simp [hp]) rfl
  simp [read_bytearray, h1, fromBytesLE_single, h2]

theorem read_str_step (buf A s R : List Nat) (p : Nat)
    (hb : buf = A ++ (s.length :: s) ++ R) (hp : p = A.length)
    (hs : ∀ b ∈ s, b < 128) :
    read_str buf p = some (s, p + 1 + s.length) := by
  have h1 : fread buf p 1 = ([s.length], p + 1) :=
    fread_step buf A [s.length] (s ++ R) p 1 (by simp [hb]) hp rfl
  have h2 : fread buf (p + 1) s.length = (s, p + 1 + s.length) :=
    fread_step buf (A ++ [s.length]) s R (p + 1) s.length (by simp [hb])
      (by simp [hp]) rfl
  simp [read_str, h1, fromBytesLE_single, h2, utf8Check_ascii s hs]

theorem strListPayload_cons (s : List Nat) (t : List (List Nat)) :
    strListPayload (s :: t) = (pyStrLen s :: s) ++ strListPayload t := rfl

theorem read_str_items_step (buf : List Nat) (l : List (List Nat)) :
    ∀ (A R : List Nat) (p : Nat), buf = A ++ strListPayload l ++ R →
    p = A.length → (∀ s ∈ l, ∀ b ∈ s, b < 128) →
    read_str_items buf l.length p = some (l, p + (strListPayload l).length) := by
  induction l with
  | nil =>
    intro A R p _ _ _
    simp [read_str_items, strListPayload]
  | cons s t ih =>
    intro A R p hb hp hascii
    have hs : ∀ b ∈ s, b < 128 := hascii s (by simp)
    have hlen : pyStrLen s = s.length := pyStrLen_ascii s hs
    have h1 : read_str buf p = some (s, p + 1 + s.length) :=
      read_str_step buf A s (strListPayload t ++ R) p
        (by simp [hb, strListPayload_cons, hlen]) hp hs
    have h2 : read_str_items buf t.length (p + 1 + s.length) =
        some (t, p + 1 + s.length + (strListPayload t).length) :=
      ih (A ++ (pyStrLen s :: s)) R (p + 1 + s.length)
        (by simp [hb, strListPayload_cons])
        (by simp [hp, hlen]; omega)
        (fun x hx => hascii x (by simp [hx]))
    simp only [List.length_cons, read_str_items, h1, h2]
    simp [strListPayload_cons, hlen]
    omega

theorem read_str_list_step (buf A R : List Nat) (l : List (List Nat)) (p : Nat)
    (hb : buf = A ++ (l.length :: strListPayload l) ++ R) (hp : p = A.length)
    (hascii : ∀ s ∈ l, ∀ b ∈ s, b < 128) :
    read_str_list buf p = some (l, p + 1 + (strListPayload l).length) := by
  have h1 : fread buf p 1 = ([l.length], p + 1) :=
    fread_step buf A [l.length] (strListPayload l ++ R) p 1 (by simp [hb]) hp rfl
  have h2 := read_str_items_step buf l (A ++ [l.length]) R (p + 1)
    (by simp [hb]) (by simp [hp]) hascii
  simp only [read_str_list, h1, fromBytesLE_single]
  rw [h2]

theorem arrayItemsBytes_cons (v : Nat) (t : List Nat) :
    arrayItemsBytes (v :: t) = toBytesLE 4 v ++ arrayItemsBytes t := rfl

theorem arrayItemsBytes_length (items : List Nat) :
    (arrayItemsBytes items).length = 4 * items.length := by
  induction items with
  | nil => rfl
  | cons v t ih =>
    simp [arrayItemsBytes_cons, toBytesLE_length, ih]
    omega

theorem read_array_items_step (buf : List Nat) (items : List Nat) :
    ∀ (A R : List Nat) (p : Nat), buf = A ++ arrayItemsBytes items ++ R →
    p = A.length → (∀ v ∈ items, v ≤ 4294967295) →
    read_array_items buf 4 items.length p = (items, p + 4 * items.length) := by
  induction items with
  | nil =>
    intro A R p _ _ _
    simp [read_array_items, arrayItemsBytes]
  | cons v t ih =>
    intro A R p hb hp hv
    have hv0 : v ≤ 4294967295 := hv v (by simp)
    have h1 : fread buf p 4 = (toBytesLE 4 v, p + 4) :=
      fread_step buf A (toBytesLE 4 v) (arrayItemsBytes t ++ R) p 4
        (by simp [hb, arrayItemsBytes_cons]) hp (toBytesLE_length 4 v)
    have h2 : read_array_items buf 4 t.length (p + 4) =
        (t, p + 4 + 4 * t.length) :=
      ih (A ++ toBytesLE 4 v) R (p + 4)
        (by simp [hb, arrayItemsBytes_cons])
        (by simp [hp, toBytesLE_length]) (fun x hx => hv x (by simp [hx]))
    have hvlt : v < 256 ^ 4 := Nat.lt_of_le_of_lt hv0 (by norm_num)
    have hval : fromBytesLE (toBytesLE 4 v) % 256 ^ 4 = v := by
      rw [fromBytesLE_toBytesLE, Nat.mod_eq_of_lt hvlt, Nat.mod_eq_of_lt hvlt]
    simp only [List.length_cons]
    rw [show p + 4 * (t.length + 1) = p + 4 + 4 * t.length from by omega]
    simp only [read_array_items, h1, h2, hval]

theorem read_array_step (buf A R : List Nat) (items : List Nat) (p : Nat)
    (hb : buf = A ++ (toBytesLE 2 items.length ++ [76] ++ arrayItemsBytes items) ++ R)
    (hp : p = A.length) (hn : items.length ≤ 65535)
    (hv : ∀ v ∈ items, v ≤ 4294967295) :
    read_array buf p = some (⟨76, items⟩, p + 3 + 4 * items.length) := by
  have h1 : fread buf p 2 = (toBytesLE 2 items.length, p + 2) :=
    fread_step buf A (toBytesLE 2 items.length)
      ([76] ++ arrayItemsBytes items ++ R) p 2 (by simp [hb]) hp
      (toBytesLE_length 2 items.length)
  have h2 : fread buf (p + 2) 1 = ([76], p + 3) := by
    have := fread_step buf (A ++ toBytesLE 2 items.length) [76]
      (arrayItemsBytes items ++ R) (p + 2) 1 (by simp [hb])
      (by simp [hp, toBytesLE_length]) rfl
    simpa using this
  have hc : fromBytesLE (toBytesLE 2 items.length) = items.length := by
    rw [fromBytesLE_toBytesLE]
    exact Nat.mod_eq_of_lt (Nat.lt_of_le_of_lt hn (by norm_num))
  have h3 : read_array_items buf 4 items.length (p + 3) =
      (items, p + 3 + 4 * items.length) :=
    read_array_items_step buf items (A ++ toBytesLE 2 items.length ++ [76]) R
      (p + 3) (by simp [hb]) (by simp [hp, toBytesLE_length]) hv
  have htc : typecodeSize 76 = some 4 := by decide
  simp [read_array, h1, h2, hc, htc, h3]


set_option maxHeartbeats 4000000

/-- Decoding any buffer that starts with the encoded field region of a valid
store — the reserved byte generalized to `rb` — succeeds through every field,
overwrites every store field with the encoded values (the version field with
the constant 2), and then stands or falls with the 3 bytes following the
field region: the footer check passes only on `0x00 0x00 0x42`, and an
ill-formed footer fails as `badFooter` (or as the `UnicodeError` raised while
formatting the error message, when the corrupt footer is not valid UTF-8). -/
theorem fromFlashBytes_fields (c self : EnvelopeConfig) (rb : Nat) (R : List Nat)
    (hv : ValidStore c) :
    fromFlashBytes self (encFieldsFrom rb c ++ R) =
      ({c with cfg_version := 2},
        if R.take 3 = [0, 0, 66] then none
        else some (if utf8Check (R.take 3) 0 then ConfigReadError.badFooter
                   else ConfigReadError.unicodeError)) := by
  obtain ⟨hfreq, hnlen, hnascii, hpwm, htach, hduty, hcnt, hnames, hina, hads,
    htc, hilen, hival⟩ := hv
  have hname : pyStrLen c.name = c.name.length := pyStrLen_ascii c.name hnascii
  have h0 : fread (encFieldsFrom rb c ++ R) 0 4 = ([146, 0, rb, 2], 4) := by
    simpa using fread_step (encFieldsFrom rb c ++ R) [] [146, 0, rb, 2]
      (toBytesLE 4 c.freq ++ (pyStrLen c.name :: c.name) ++
        (c.pwmMap.length :: c.pwmMap) ++ (c.tachMap.length :: c.tachMap) ++
        (c.pwmDutyCycles.length :: c.pwmDutyCycles) ++
        (c.pwmNames.length :: strListPayload c.pwmNames) ++
        (c.inaSettings.length :: c.inaSettings) ++
        (toBytesLE 2 c.i2cSettings.items.length ++ [76] ++
          arrayItemsBytes c.i2cSettings.items) ++
        (c.adsSettings.length :: c.adsSettings) ++ R) 0 4
      (by simp [encFieldsFrom, List.append_assoc]) rfl rfl
  have h1 : fread (encFieldsFrom rb c ++ R) 4 4 = (toBytesLE 4 c.freq, 8) := by
    simpa using fread_step (encFieldsFrom rb c ++ R) [146, 0, rb, 2]
      (toBytesLE 4 c.freq)
      ((pyStrLen c.name :: c.name) ++
        (c.pwmMap.length :: c.pwmMap) ++ (c.tachMap.length :: c.tachMap) ++
        (c.pwmDutyCycles.length :: c.pwmDutyCycles) ++
        (c.pwmNames.length :: strListPayload c.pwmNames) ++
        (c.inaSettings.length :: c.inaSettings) ++
        (toBytesLE 2 c.i2cSettings.items.length ++ [76] ++
          arrayItemsBytes c.i2cSettings.items) ++
        (c.adsSettings.length :: c.adsSettings) ++ R) 4 4
      (by simp [encFieldsFrom, List.append_assoc]) rfl (toBytesLE_length 4 c.freq)
  have h2 : read_str (encFieldsFrom rb c ++ R) 8 =
      some (c.name, 9 + c.name.length) := by
    simpa using read_str_step (encFieldsFrom rb c ++ R)
      ([146, 0, rb, 2] ++ toBytesLE 4 c.freq) c.name
      ((c.pwmMap.length :: c.pwmMap) ++ (c.tachMap.length :: c.tachMap) ++
        (c.pwmDutyCycles.length :: c.pwmDutyCycles) ++
        (c.pwmNames.length :: strListPayload c.pwmNames) ++
        (c.inaSettings.length :: c.inaSettings) ++
        (toBytesLE 2 c.i2cSettings.items.length ++ [76] ++
          arrayItemsBytes c.i2cSettings.items) ++
        (c.adsSettings.length :: c.adsSettings) ++ R) 8
      (by simp [encFieldsFrom, List.append_assoc, hname])
      (by simp [toBytesLE_length]) hnascii
  set p2 := 9 + c.name.length with hp2
  have h3 : read_bytearray (encFieldsFrom rb c ++ R) p2 =
      (c.pwmMap, p2 + 1 + c.pwmMap.length) :=
    read_bytearray_step (encFieldsFrom rb c ++ R)
      ([146, 0, rb, 2] ++ toBytesLE 4 c.freq ++ (pyStrLen c.name :: c.name))
      c.pwmMap
      ((c.tachMap.length :: c.tachMap) ++
        (c.pwmDutyCycles.length :: c.pwmDutyCycles) ++
        (c.pwmNames.length :: strListPayload c.pwmNames) ++
        (c.inaSettings.length :: c.inaSettings) ++
        (toBytesLE 2 c.i2cSettings.items.length ++ [76] ++
          arrayItemsBytes c.i2cSettings.items) ++
        (c.adsSettings.length :: c.adsSettings) ++ R) p2
      (by simp [encFieldsFrom, List.append_assoc])
      (by rw [hp2]; simp [toBytesLE_length, hname]; omega)
  set p3 := p2 + 1 + c.pwmMap.length with hp3
  have h4 : read_bytearray (encFieldsFrom rb c ++ R) p3 =
      (c.tachMap, p3 + 1 + c.tachMap.length) :=
    read_bytearray_step (encFieldsFrom rb c ++ R)
      ([146, 0, rb, 2] ++ toBytesLE 4 c.freq ++ (pyStrLen c.name :: c.name) ++
        (c.pwmMap.length :: c.pwmMap))
      c.tachMap
      ((c.pwmDutyCycles.length :: c.pwmDutyCycles) ++
        (c.pwmNames.length :: strListPayload c.pwmNames) ++
        (c.inaSettings.length :: c.inaSettings) ++
        (toBytesLE 2 c.i2cSettings.items.length ++ [76] ++
          arrayItemsBytes c.i2cSettings.items) ++
        (c.adsSettings.length :: c.adsSettings) ++ R) p3
      (by simp [encFieldsFrom, List.append_assoc])
      (by rw [hp3, hp2]; simp [toBytesLE_length, hname]; omega)
  set p4 := p3 + 1 + c.tachMap.length with hp4
  have h5 : read_bytearray (encFieldsFrom rb c ++ R) p4 =
      (c.pwmDutyCycles, p4 + 1 + c.pwmDutyCycles.length) :=
    read_bytearray_step (encFieldsFrom rb c ++ R)
      ([146, 0, rb, 2] ++ toBytesLE 4 c.freq ++ (pyStrLen c.name :: c.name) ++
        (c.pwmMap.length :: c.pwmMap) ++ (c.tachMap.length :: c.tachMap))
      c.pwmDutyCycles
      ((c.pwmNames.length :: strListPayload c.pwmNames) ++
        (c.inaSettings.length :: c.inaSettings) ++
        (toBytesLE 2 c.i2cSettings.items.length ++ [76] ++
          arrayItemsBytes c.i2cSettings.items) ++
        (c.adsSettings.length :: c.adsSettings) ++ R) p4
      (by simp [encFieldsFrom, List.append_assoc])
      (by rw [hp4, hp3, hp2]; simp [toBytesLE_length, hname]; omega)
  set p5 := p4 + 1 + c.pwmDutyCycles.length with hp5
  have h6 : read_str_list (encFieldsFrom rb c ++ R) p5 =
      some (c.pwmNames, p5 + 1 + (strListPayload c.pwmNames).length) :=
    read_str_list_step (encFieldsFrom rb c ++ R)
      ([146, 0, rb, 2] ++ toBytesLE 4 c.freq ++ (pyStrLen c.name :: c.name) ++
        (c.pwmMap.length :: c.pwmMap) ++ (c.tachMap.length :: c.tachMap) ++
        (c.pwmDutyCycles.length :: c.pwmDutyCycles))
      ((c.inaSettings.length :: c.inaSettings) ++
        (toBytesLE 2 c.i2cSettings.items.length ++ [76] ++
          arrayItemsBytes c.i2cSettings.items) ++
        (c.adsSettings.length :: c.adsSettings) ++ R)
      c.pwmNames p5
      (by simp [encFieldsFrom, List.append_assoc])
      (by rw [hp5, hp4, hp3, hp2]; simp [toBytesLE_length, hname]; omega)
      (fun s hs => (hnames s hs).2)
  set p6 := p5 + 1 + (strListPayload c.pwmNames).length with hp6
  have h7 : read_bytearray (encFieldsFrom rb c ++ R) p6 =
      (c.inaSettings, p6 + 1 + c.inaSettings.length) :=
    read_bytearray_step (encFieldsFrom rb c ++ R)
      ([146, 0, rb, 2] ++ toBytesLE 4 c.freq ++ (pyStrLen c.name :: c.name) ++
        (c.pwmMap.length :: c.pwmMap) ++ (c.tachMap.length :: c.tachMap) ++
        (c.pwmDutyCycles.length :: c.pwmDutyCycles) ++
        (c.pwmNames.length :: strListPayload c.pwmNames))
      c.inaSettings
      ((toBytesLE 2 c.i2cSettings.items.length ++ [76] ++
          arrayItemsBytes c.i2cSettings.items) ++
        (c.adsSettings.length :: c.adsSettings) ++ R) p6
      (by simp [encFieldsFrom, List.append_assoc])
      (by rw [hp6, hp5, hp4, hp3, hp2]; simp [toBytesLE_length, hname]; omega)
  set p7 := p6 + 1 + c.inaSettings.length with hp7
  have h8 : read_array (encFieldsFrom rb c ++ R) p7 =
      some (⟨76, c.i2cSettings.items⟩, p7 + 3 + 4 * c.i2cSettings.items.length) :=
    read_array_step (encFieldsFrom rb c ++ R)
      ([146, 0, rb, 2] ++ toBytesLE 4 c.freq ++ (pyStrLen c.name :: c.name) ++
        (c.pwmMap.length :: c.pwmMap) ++ (c.tachMap.length :: c.tachMap) ++
        (c.pwmDutyCycles.length :: c.pwmDutyCycles) ++
        (c.pwmNames.length :: strListPayload c.pwmNames) ++
        (c.inaSettings.length :: c.inaSettings))
      ((c.adsSettings.length :: c.adsSettings) ++ R)
      c.i2cSettings.items p7
      (by simp [encFieldsFrom, List.append_assoc])
      (by rw [hp7, hp6, hp5, hp4, hp3, hp2]; simp [toBytesLE_length, hname]; omega)
      hilen hival
  set p8 := p7 + 3 + 4 * c.i2cSettings.items.length with hp8
  have h9 : read_bytearray (encFieldsFrom rb c ++ R) p8 =
      (c.adsSettings, p8 + 1 + c.adsSettings.length) :=
    read_bytearray_step (encFieldsFrom rb c ++ R)
      ([146, 0, rb, 2] ++ toBytesLE 4 c.freq ++ (pyStrLen c.name :: c.name) ++
        (c.pwmMap.length :: c.pwmMap) ++ (c.tachMap.length :: c.tachMap) ++
        (c.pwmDutyCycles.length :: c.pwmDutyCycles) ++
        (c.pwmNames.length :: strListPayload c.pwmNames) ++
        (c.inaSettings.length :: c.inaSettings) ++
        (toBytesLE 2 c.i2cSettings.items.length ++ [76] ++
          arrayItemsBytes c.i2cSettings.items))
      c.adsSettings R p8
      (by simp [encFieldsFrom, List.append_assoc])
      (by rw [hp8, hp7, hp6, hp5, hp4, hp3, hp2]
          simp [toBytesLE_length, hname, arrayItemsBytes_length]; omega)
  set p9 := p8 + 1 + c.adsSettings.length with hp9
  have hfieldslen : (encFieldsFrom rb c).length = p9 := by
    rw [hp9, hp8, hp7, hp6, hp5, hp4, hp3, hp2]
    simp [encFieldsFrom, toBytesLE_length, arrayItemsBytes_length, hname]
    omega
  have h10 : fread (encFieldsFrom rb c ++ R) p9 3 =
      (R.take 3, p9 + (R.take 3).length) := by
    have hd : (encFieldsFrom rb c ++ R).drop p9 = R := List.drop_left' hfieldslen
    simp [fread, hd]
  have hfr : fromBytesLE (toBytesLE 4 c.freq) = c.freq := by
    rw [fromBytesLE_toBytesLE]
    exact Nat.mod_eq_of_lt (Nat.lt_of_le_of_lt hfreq (by norm_num))
  have hi2c : PyArray.mk 76 c.i2cSettings.items = c.i2cSettings := by
    rw [← htc]
  by_cases hft : R.take 3 = [0, 0, 66]
  · simp [fromFlashBytes, h0, h1, h2, h3, h4, h5, h6, h7, h8, h9, h10, hft,
      hfr, hi2c]
  · simp [fromFlashBytes, h0, h1, h2, h3, h4, h5, h6, h7, h8, h9, h10, hft,
      hfr, hi2c]

/-- For a valid store, `toFlash` writes exactly the header-plus-fields region
(reserved byte 0) followed by `CONFIG_FOOTER`. -/
theorem toFlashBytes_eq (c : EnvelopeConfig) (hv : ValidStore c) :
    toFlashBytes c = some (encFieldsFrom 0 c ++ [0, 0, 66]) := by
  obtain ⟨hfreq, hnlen, hnascii, hpwm, htach, hduty, hcnt, hnames, hina, hads,
    htc, hilen, hival⟩ := hv
  have hname : pyStrLen c.name = c.name.length := pyStrLen_ascii c.name hnascii
  have hall : c.pwmNames.all (fun s => decide (pyStrLen s ≤ 255)) = true := by
    rw [List.all_eq_true]
    intro s hs
    have h1 := (hnames s hs).1
    have h2 := pyStrLen_ascii s (hnames s hs).2
    simp [h2]
    omega
  simp [toFlashBytes, savable_str, savable_bytearray, savable_str_list,
    savable_array, encFieldsFrom, hname, hnlen, hfreq, hpwm, htach, hduty,
    hina, hads, hilen, hcnt, hall, List.append_assoc]

theorem fromFlashBytes_version_mismatch (self : EnvelopeConfig) (b2 v : Nat)
    (rest : List Nat) (hv : v ≠ 2) :
    fromFlashBytes self (146 :: 0 :: b2 :: v :: rest) =
      ({self with cfg_version := v}, some ConfigReadError.versionMismatch) := by
  have h0 : fread (146 :: 0 :: b2 :: v :: rest) 0 4 = ([146, 0, b2, v], 4) := by
    simp [fread, List.take]
  simp [fromFlashBytes, h0, List.getD, hv]

/-- C2 (amended): `fromFlash` mutates the live store field-by-field as it
decodes, so a version-mismatch failure — reached after `self.cfg_version`
has already been assigned from `header[3]` — leaves the store with
`cfg_version` set to the buffer's version byte while all later fields keep
their prior values, and the `ConfigError` escapes to the caller. -/
theorem C2_decode_mutation_amended (self : EnvelopeConfig) (b2 v : Nat)
    (rest : List Nat) (hv : v ≠ 2) :
    fromFlashBytes self (146 :: 0 :: b2 :: v :: rest) =
      ({self with cfg_version := v}, some ConfigReadError.versionMismatch) :=
  fromFlashBytes_version_mismatch self b2 v rest hv

theorem C2_decode_mutation_witness :
    fromFlashBytes defaultConfig [146, 0, 0, 3] =
      ({defaultConfig with cfg_version := 3}, some ConfigReadError.versionMismatch) :=
  C2_decode_mutation_amended defaultConfig 0 3 [] (by decide)

/-- C2 (counterexample): decoding the 4-byte buffer `0x92 0x00 0x00 0x03`
fails (version mismatch), yet the live store is not left as it was — its
stored version field has been overwritten with 3. -/
theorem C2_decode_mutation_counterexample :
    (fromFlashBytes defaultConfig [146, 0, 0, 3]).2.isSome = true ∧
    (fromFlashBytes defaultConfig [146, 0, 0, 3]).1 ≠ defaultConfig := by decide

/-- C3 (amended): `load()` returns normally only for the `OSError` cases
(file absent or unreadable), keeping the current store; for a present file it
simply runs the body, so any decode-validation failure (for example a version
mismatch) escapes to the caller as an exception. -/
theorem C3_load_errors_amended (self : EnvelopeConfig) (content : List Nat) :
    fromFlash self FileState.absent = (self, none) ∧
    fromFlash self FileState.unreadable = (self, none) ∧
    fromFlash self (FileState.present content) = fromFlashBytes self content ∧
    (fromFlash self (FileState.present (146 :: 0 :: 0 :: 3 :: content))).2 =
      some ConfigReadError.versionMismatch := by
  refine ⟨rfl, rfl, rfl, ?_⟩
  have h := fromFlashBytes_version_mismatch self 0 3 content (by decide)
  show (fromFlashBytes self (146 :: 0 :: 0 :: 3 :: content)).2 = _
  rw [h]

/-- C3 (counterexample): a present file whose version byte is 3 makes
`load()` raise (`ConfigError` escapes the `except OSError` handler), contrary
to the claim that `load()` never raises for decode-validation failures. -/
theorem C3_load_errors_counterexample :
    (fromFlash defaultConfig (FileState.present [146, 0, 0, 3])).2 ≠ none := by
  decide

/-- C6 (amended): once the backup rename has run, the canonical path is
absent (its prior content moved to the `.old` backup) until the final rename
installs the new content; only an interruption before the backup rename
leaves the canonical file exactly as it was. -/
theorem C6_interrupted_save_amended (fs : FlashFS) (enc c0 : List Nat)
    (h : fs.canonical = some c0) :
    (afterWriteTemp enc fs).canonical = some c0 ∧
    (afterBackupRename (afterWriteTemp enc fs)).canonical = none ∧
    (afterBackupRename (afterWriteTemp enc fs)).oldFile = some c0 ∧
    afterFinalRename (afterBackupRename (afterWriteTemp enc fs)) =
      some { canonical := some enc, newFile := none, oldFile := some c0 } := by
  simp [afterWriteTemp, afterBackupRename, afterFinalRename, h]

theorem C6_interrupted_save_witness :
    (afterWriteTemp [5] ⟨some [1], none, none⟩).canonical = some [1] ∧
    (afterBackupRename (afterWriteTemp [5] ⟨some [1], none, none⟩)).canonical = none ∧
    (afterBackupRename (afterWriteTemp [5] ⟨some [1], none, none⟩)).oldFile = some [1] ∧
    afterFinalRename (afterBackupRename (afterWriteTemp [5] ⟨some [1], none, none⟩)) =
      some { canonical := some [5], newFile := none, oldFile := some [1] } :=
  C6_interrupted_save_amended ⟨some [1], none, none⟩ [5] [1] rfl

/-- C6 (counterexample): interrupting the save after the canonical→backup
rename (between "write temp" and "rename temp to canonical") leaves the
canonical path empty, not "exactly as it was before the save attempt". -/
theorem C6_interrupted_save_counterexample :
    (afterBackupRename (afterWriteTemp ((toFlashBytes defaultConfig).getD [])
      ⟨some [9], none, none⟩)).canonical ≠ some [9] := by decide

/-- C7: if the temporary-file write raises (for example, medium full), the
exception propagates (no handler wraps the `with open` block) and neither the
canonical file nor the backup is touched — only the two `os.rename` calls
ever name the canonical path. -/
theorem C7_write_failure_frame (fs : FlashFS) (written : List Nat) :
    (toFlashWriteInterrupted fs written).canonical = fs.canonical ∧
    (toFlashWriteInterrupted fs written).oldFile = fs.oldFile :=
  ⟨rfl, rfl⟩

/-- C9: the reference profile (name "Amethyst", pinMap [0,2,4,6,8,10],
channelNames FAN 1..Spare, frequency 133000000, and the remaining defaults)
encodes to exactly 100 bytes and decodes back — into a store differing in
every field — reproducing every serialized field exactly (the stored version
field becomes the constant 2). -/
theorem C9_worked_example :
    (toFlashBytes defaultConfig).isSome = true ∧
    ((toFlashBytes defaultConfig).getD []).length = 100 ∧
    fromFlashBytes blankStore ((toFlashBytes defaultConfig).getD []) =
      ({defaultConfig with cfg_version := 2}, none) := by decide

/-- C1 (amended): encode-then-decode reproduces every field of a valid store
(ASCII strings, in-range lengths and values, bus values up to `2^32 - 1`
kept unsigned) except the stored version field, which decode sets to the
constant 2 because `toFlash` writes `ENVELOPE_CONFIG_VER`, not the store's
own `cfg_version`. -/
theorem C1_roundtrip_amended (c self : EnvelopeConfig) (enc : List Nat)
    (hv : ValidStore c) (henc : toFlashBytes c = some enc) :
    fromFlashBytes self enc = ({c with cfg_version := 2}, none) := by
  rw [toFlashBytes_eq c hv] at henc
  injection henc with henc
  subst henc
  simpa using fromFlashBytes_fields c self 0 [0, 0, 66] hv

theorem C1_roundtrip_witness :
    fromFlashBytes defaultConfig (encFieldsFrom 0 bigBusStore ++ [0, 0, 66]) =
      ({bigBusStore with cfg_version := 2}, none) :=
  C1_roundtrip_amended bigBusStore defaultConfig
    (encFieldsFrom 0 bigBusStore ++ [0, 0, 66]) (by decide) (by decide)

/-- C1 (counterexample): the store whose name is `"é"` satisfies the claim's
validity conditions (a 2-byte length-prefixed field), yet decode of its
encoding does not return the store unchanged with success — the length byte
holds the character count 1, so decode reads one byte of the two-byte UTF-8
sequence and fails. -/
theorem C1_roundtrip_counterexample :
    (toFlashBytes accentStore).isSome = true ∧
    fromFlashBytes accentStore ((toFlashBytes accentStore).getD []) ≠
      (accentStore, none) := by decide

/-- C10: the reserved byte at offset 2 is written as zero by encode but never
examined by decode — a buffer agreeing with a valid encoding everywhere
except offset 2 decodes successfully to the same store. -/
theorem C10_reserved_byte (c self : EnvelopeConfig) (rb : Nat) (hv : ValidStore c) :
    toFlashBytes c = some (encFieldsFrom 0 c ++ [0, 0, 66]) ∧
    (encFieldsFrom 0 c ++ [0, 0, 66]).getD 2 0 = 0 ∧
    (encFieldsFrom rb c ++ [0, 0, 66]).getD 2 0 = rb ∧
    fromFlashBytes self (encFieldsFrom rb c ++ [0, 0, 66]) =
      ({c with cfg_version := 2}, none) := by
  refine ⟨toFlashBytes_eq c hv, ?_, ?_, ?_⟩
  · simp [encFieldsFrom]
  · simp [encFieldsFrom]
  · simpa using fromFlashBytes_fields c self rb [0, 0, 66] hv

theorem C10_reserved_byte_witness :
    toFlashBytes defaultConfig = some (encFieldsFrom 0 defaultConfig ++ [0, 0, 66]) ∧
    (encFieldsFrom 0 defaultConfig ++ [0, 0, 66]).getD 2 0 = 0 ∧
    (encFieldsFrom 77 defaultConfig ++ [0, 0, 66]).getD 2 0 = 77 ∧
    fromFlashBytes blankStore (encFieldsFrom 77 defaultConfig ++ [0, 0, 66]) =
      ({defaultConfig with cfg_version := 2}, none) :=
  C10_reserved_byte defaultConfig blankStore 77 (by decide)

theorem xor_two_pow_ne (a k : Nat) : a ^^^ 2 ^ k ≠ a := by
  intro h
  have h1 : a ^^^ (a ^^^ 2 ^ k) = a ^^^ a := by rw [h]
  rw [← Nat.xor_assoc, Nat.xor_self, Nat.zero_xor] at h1
  exact absurd h1 (Nat.pos_iff_ne_zero.mp (Nat.two_pow_pos k))

theorem fromFlashBytes_bad_header (self : EnvelopeConfig) (b0 b1 b2 b3 : Nat)
    (rest : List Nat) (h : b0 ≠ 146 ∨ b1 ≠ 0) :
    fromFlashBytes self (b0 :: b1 :: b2 :: b3 :: rest) =
      (self, some ConfigReadError.badHeader) := by
  have h0 : fread (b0 :: b1 :: b2 :: b3 :: rest) 0 4 = ([b0, b1, b2, b3], 4) := by
    simp [fread, List.take]
  have hcond : ([b0, b1] : List Nat) ≠ [146, 0] := by
    intro hh
    simp at hh
    rcases h with h | h
    · exact h hh.1
    · exact h hh.2
  simp [fromFlashBytes, h0, hcond, List.take]

theorem flip_header_fails (self : EnvelopeConfig) (b2 b3 : Nat) (rest : List Nat)
    (j k : Nat) (hj : j < 2) :
    fromFlashBytes self (flipBitAt (146 :: 0 :: b2 :: b3 :: rest) j k) =
      (self, some ConfigReadError.badHeader) := by
  interval_cases j
  · rw [show flipBitAt (146 :: 0 :: b2 :: b3 :: rest) 0 k =
        (146 ^^^ 2 ^ k) :: 0 :: b2 :: b3 :: rest from rfl]
    exact fromFlashBytes_bad_header self _ _ _ _ rest (Or.inl (xor_two_pow_ne 146 k))
  · rw [show flipBitAt (146 :: 0 :: b2 :: b3 :: rest) 1 k =
        146 :: (0 ^^^ 2 ^ k) :: b2 :: b3 :: rest from rfl]
    refine fromFlashBytes_bad_header self _ _ _ _ rest (Or.inr ?_)
    rw [Nat.zero_xor]
    exact Nat.pos_iff_ne_zero.mp (Nat.two_pow_pos k)

/-- C5 (amended): flipping any bit of the 2-byte header magic fails decode
with `badHeader` and leaves the store untouched. Flipping any bit of the
3-byte footer magic also fails decode, with `badFooter` when the corrupted
footer is still valid UTF-8; flipping the top bit of a footer byte makes the
footer invalid UTF-8, and the failure then surfaces as the `UnicodeError`
raised by `footer.decode` while the bad-footer message is being formatted. -/
theorem C5_magic_corruption_amended (c self : EnvelopeConfig) (j k m : Nat)
    (hv : ValidStore c) (hj : j < 2) (hk : k < 8) (hm : m < 3) :
    fromFlashBytes self (flipBitAt (encFieldsFrom 0 c ++ [0, 0, 66]) j k) =
      (self, some ConfigReadError.badHeader) ∧
    (fromFlashBytes self (encFieldsFrom 0 c ++ flipBitAt [0, 0, 66] m k)).2 =
      some (if utf8Check (flipBitAt [0, 0, 66] m k) 0 then
        ConfigReadError.badFooter else ConfigReadError.unicodeError) := by
  constructor
  · obtain ⟨tail, htail⟩ : ∃ t, encFieldsFrom 0 c ++ [0, 0, 66] =
        146 :: 0 :: 0 :: 2 :: t := ⟨_, rfl⟩
    rw [htail]
    exact flip_header_fails self 0 2 tail j k hj
  · have hpos : 2 ^ k ≠ 0 := Nat.pos_iff_ne_zero.mp (Nat.two_pow_pos k)
    have hflen : (flipBitAt [0, 0, 66] m k).length = 3 := by
      simp [flipBitAt]
    have htake : (flipBitAt [0, 0, 66] m k).take 3 = flipBitAt [0, 0, 66] m k := by
      rw [← hflen]
      exact List.take_length ..
    have hne : flipBitAt [0, 0, 66] m k ≠ [0, 0, 66] := by
      interval_cases m
      · rw [show flipBitAt [0, 0, 66] 0 k = [0 ^^^ 2 ^ k, 0, 66] from rfl]
        simp [Nat.zero_xor, hpos]
      · rw [show flipBitAt [0, 0, 66] 1 k = [0, 0 ^^^ 2 ^ k, 66] from rfl]
        simp [Nat.zero_xor, hpos]
      · rw [show flipBitAt [0, 0, 66] 2 k = [0, 0, 66 ^^^ 2 ^ k] from rfl]
        simp [xor_two_pow_ne 66 k]
    rw [fromFlashBytes_fields c self 0 (flipBitAt [0, 0, 66] m k) hv, htake]
    simp [hne]

theorem C5_magic_corruption_witness :
    fromFlashBytes blankStore (flipBitAt (encFieldsFrom 0 defaultConfig ++ [0, 0, 66]) 0 0) =
      (blankStore, some ConfigReadError.badHeader) ∧
    (fromFlashBytes blankStore (encFieldsFrom 0 defaultConfig ++ flipBitAt [0, 0, 66] 0 0)).2 =
      some (if utf8Check (flipBitAt [0, 0, 66] 0 0) 0 then
        ConfigReadError.badFooter else ConfigReadError.unicodeError) :=
  C5_magic_corruption_amended defaultConfig blankStore 0 0 0 (by decide)
    (by decide) (by decide) (by decide)

/-- C5 (counterexample): flipping bit 7 of the first footer byte of an
otherwise valid default envelope makes decode fail with a `UnicodeError`
raised while the bad-footer message is formatted, not with the bad-footer
`ConfigError` the claim requires. -/
theorem C5_magic_corruption_counterexample :
    (fromFlashBytes defaultConfig
      (encFieldsFrom 0 defaultConfig ++ flipBitAt [0, 0, 66] 0 7)).2 ≠
      some ConfigReadError.badFooter := by decide

theorem read_array_items_step_gen (buf : List Nat) (items : List Nat) (sz : Nat) :
    ∀ (A R : List Nat) (p : Nat), buf = A ++ arrayItemsBytes items ++ R →
    p = A.length → (∀ v ∈ items, v ≤ 4294967295) →
    read_array_items buf sz items.length p =
      (items.map (fun v => v % 256 ^ sz), p + 4 * items.length) := by
  induction items with
  | nil =>
    intro A R p _ _ _
    simp [read_array_items, arrayItemsBytes]
  | cons v t ih =>
    intro A R p hb hp hv
    have hv0 : v ≤ 4294967295 := hv v (by simp)
    have h1 : fread buf p 4 = (toBytesLE 4 v, p + 4) :=
      fread_step buf A (toBytesLE 4 v) (arrayItemsBytes t ++ R) p 4
        (by simp [hb, arrayItemsBytes_cons]) hp (toBytesLE_length 4 v)
    have h2 : read_array_items buf sz t.length (p + 4) =
        (t.map (fun v => v % 256 ^ sz), p + 4 + 4 * t.length) :=
      ih (A ++ toBytesLE 4 v) R (p + 4)
        (by simp [hb, arrayItemsBytes_cons])
        (by simp [hp, toBytesLE_length]) (fun x hx => hv x (by simp [hx]))
    have hvlt : v < 256 ^ 4 := Nat.lt_of_le_of_lt hv0 (by norm_num)
    have hval : fromBytesLE (toBytesLE 4 v) = v := by
      rw [fromBytesLE_toBytesLE, Nat.mod_eq_of_lt hvlt]
    simp only [List.length_cons, List.map_cons]
    rw [show p + 4 * (t.length + 1) = p + 4 + 4 * t.length from by omega]
    simp only [read_array_items, h1, h2, hval]

/-- C8 (amended): `_read_array` performs no check that the tag equals the
32-bit-unsigned typecode `L`. Feeding the tag byte to `array(...)` fails only
when the byte is not a typecode `mp_binary_get_size` accepts (a `ValueError`;
a non-ASCII tag byte already fails `decode`); every accepted typecode — for
example `I` — is accepted, and the `count × 4-byte` layout is then parsed
into an array of that typecode. For the typecodes whose cells store the
integer value (`intStoreTypecode`: the bytearray code, `b B h H i I l L q Q`,
`P` and `O`) the elements are the read values masked to the element size;
for `f`/`d`/`S` decode still succeeds with the same layout and positions,
with cell contents (converted floats, or unwritten memory) not asserted. -/
theorem C8_typed_array_tag_amended (A R items : List Nat) (tag : Nat)
    (hn : items.length ≤ 65535) (hv : ∀ v ∈ items, v ≤ 4294967295) :
    (typecodeSize tag = none →
      read_array (A ++ (toBytesLE 2 items.length ++ [tag] ++ arrayItemsBytes items) ++ R)
        A.length = none) ∧
    (∀ sz, typecodeSize tag = some sz →
      ∃ elems, read_array
        (A ++ (toBytesLE 2 items.length ++ [tag] ++ arrayItemsBytes items) ++ R)
        A.length = some (⟨tag, elems⟩, A.length + 3 + 4 * items.length)) ∧
    (∀ sz, typecodeSize tag = some sz → intStoreTypecode tag = true →
      read_array (A ++ (toBytesLE 2 items.length ++ [tag] ++ arrayItemsBytes items) ++ R)
        A.length =
        some (⟨tag, items.map (fun v => v % 256 ^ sz)⟩,
          A.length + 3 + 4 * items.length)) := by
  set B := A ++ (toBytesLE 2 items.length ++ [tag] ++ arrayItemsBytes items) ++ R
    with hB
  have h1 : fread B A.length 2 = (toBytesLE 2 items.length, A.length + 2) :=
    fread_step B A (toBytesLE 2 items.length) ([tag] ++ arrayItemsBytes items ++ R)
      A.length 2 (by rw [hB]; simp [List.append_assoc]) rfl
      (toBytesLE_length 2 items.length)
  have h2 : fread B (A.length + 2) 1 = ([tag], A.length + 3) := by
    have := fread_step B (A ++ toBytesLE 2 items.length) [tag]
      (arrayItemsBytes items ++ R) (A.length + 2) 1
      (by rw [hB]; simp [List.append_assoc]) (by simp [toBytesLE_length]) rfl
    simpa using this
  have hc : fromBytesLE (toBytesLE 2 items.length) = items.length := by
    rw [fromBytesLE_toBytesLE]
    exact Nat.mod_eq_of_lt (Nat.lt_of_le_of_lt hn (by norm_num))
  have hech : ∀ sz, typecodeSize tag = some sz →
      read_array B A.length =
        some (⟨tag, items.map (fun v => v % 256 ^ sz)⟩,
          A.length + 3 + 4 * items.length) := by
    intro sz htag
    have h3 : read_array_items B sz items.length (A.length + 3) =
        (items.map (fun v => v % 256 ^ sz), A.length + 3 + 4 * items.length) :=
      read_array_items_step_gen B items sz (A ++ toBytesLE 2 items.length ++ [tag]) R
        (A.length + 3) (by rw [hB]; simp [List.append_assoc])
        (by simp [toBytesLE_length]) hv
    simp [read_array, h1, h2, hc, htag, h3]
  refine ⟨?_, ?_, ?_⟩
  · intro htag
    simp [read_array, h1, h2, hc, htag]
  · intro sz htag
    exact ⟨items.map (fun v => v % 256 ^ sz), hech sz htag⟩
  · intro sz htag _
    exact hech sz htag

theorem C8_typed_array_tag_witness :
    read_array (([] : List Nat) ++
      (toBytesLE 2 ([5] : List Nat).length ++ [0] ++ arrayItemsBytes [5]) ++ [])
      ([] : List Nat).length = none :=
  (C8_typed_array_tag_amended [] [] [5] 0 (by decide) (by decide)).1 (by decide)

/-- C8 (counterexample): replacing the tag byte (offset 78) of the valid
default envelope with `I` (0x49) — a tag other than the 32-bit-unsigned tag
`L` — does not make decode fail: the envelope decodes without error and the
bus-settings array simply carries typecode `I`. -/
theorem C8_typed_array_tag_counterexample :
    ((toFlashBytes defaultConfig).getD []).getD 78 0 = 76 ∧
    (fromFlashBytes defaultConfig
      (((toFlashBytes defaultConfig).getD []).set 78 73)).2 = none ∧
    (fromFlashBytes defaultConfig
      (((toFlashBytes defaultConfig).getD []).set 78 73)).1.i2cSettings =
      ⟨73, [1, 27, 26, 400000]⟩ := by decide

/-! Truncation lemmas: decoding a proper prefix `L.take t` of a valid buffer
keeps positions at `min (full-parse position) t` — once any read comes up
short the position sticks at the end — so the footer read can never see the
footer bytes and decode must fail. -/

theorem take_trunc_len (L : List Nat) (t : Nat) (ht : t ≤ L.length) :
    (L.take t).length = t := by
  simp [List.length_take]
  omega

theorem fread_trunc_head (L A : List Nat) (b : Nat) (B : List Nat) (t p : Nat)
    (hb : L = A ++ (b :: B)) (hp : p = A.length) (hpt : p < t) (ht : t ≤ L.length) :
    fread (L.take t) p 1 = ([b], p + 1) := by
  have hdrop : (L.take t).drop p = (b :: B).take (t - p) := by
    rw [List.drop_take]
    congr 1
    rw [hb, hp]
    exact List.drop_left A (b :: B)
  have htk : ((b :: B).take (t - p)).take 1 = [b] := by
    rw [List.take_take, show min 1 (t - p) = 1 from by omega]
    rfl
  simp only [fread, hdrop, htk]
  rfl

theorem read_bytearray_trunc (L A d R : List Nat) (t p : Nat)
    (hb : L = A ++ (d.length :: d) ++ R) (hp : p = A.length) (ht : t ≤ L.length) :
    (read_bytearray (L.take t) (min p t)).2 = min (p + 1 + d.length) t := by
  have hTlen : (L.take t).length = t := take_trunc_len L t ht
  rcases le_or_lt t p with h | h
  · have hq : min p t = t := by omega
    have e1 : fread (L.take t) t 1 = ([], t) := fread_eof _ _ _ (by omega)
    have e2 : fread (L.take t) t 0 = ([], t) := fread_eof _ _ _ (by omega)
    rw [hq]
    simp [read_bytearray, e1, fromBytesLE, e2]
    omega
  · have hq : min p t = p := by omega
    have e1 : fread (L.take t) p 1 = ([d.length], p + 1) :=
      fread_trunc_head L A d.length (d ++ R) t p (by simp [hb]) hp h ht
    have e2 : (fread (L.take t) (p + 1) d.length).2 = min (p + 1 + d.length) t := by
      rw [fread_snd _ _ _ (by omega), hTlen]
    rw [hq]
    simp only [read_bytearray, e1, fromBytesLE_single]
    exact e2

theorem read_str_trunc (L A s R : List Nat) (t p : Nat)
    (hb : L = A ++ (s.length :: s) ++ R) (hp : p = A.length) (ht : t ≤ L.length) :
    read_str (L.take t) (min p t) = none ∨
    ∃ v, read_str (L.take t) (min p t) = some (v, min (p + 1 + s.length) t) := by
  have hTlen : (L.take t).length = t := take_trunc_len L t ht
  rcases le_or_lt t p with h | h
  · have hq : min p t = t := by omega
    have e1 : fread (L.take t) t 1 = ([], t) := fread_eof _ _ _ (by omega)
    have e2 : fread (L.take t) t 0 = ([], t) := fread_eof _ _ _ (by omega)
    right
    refine ⟨[], ?_⟩
    rw [hq, show min (p + 1 + s.length) t = t from by omega]
    simp [read_str, e1, fromBytesLE, e2, utf8Check]
  · have hq : min p t = p := by omega
    have e1 : fread (L.take t) p 1 = ([s.length], p + 1) :=
      fread_trunc_head L A s.length (s ++ R) t p (by simp [hb]) hp h ht
    have e2 : (fread (L.take t) (p + 1) s.length).2 = min (p + 1 + s.length) t := by
      rw [fread_snd _ _ _ (by omega), hTlen]
    rw [hq]
    simp only [read_str, e1, fromBytesLE_single]
    by_cases hu : utf8Check (fread (L.take t) (p + 1) s.length).1 0
    · right
      refine ⟨(fread (L.take t) (p + 1) s.length).1, ?_⟩
      rw [if_pos hu, ← e2]
    · left
      rw [if_neg hu]

theorem read_str_items_trunc (L : List Nat) (l : List (List Nat)) (t : Nat)
    (ht : t ≤ L.length) :
    ∀ (A R : List Nat) (p : Nat), L = A ++ strListPayload l ++ R →
    p = A.length → (∀ s ∈ l, pyStrLen s = s.length) →
    read_str_items (L.take t) l.length (min p t) = none ∨
    ∃ v, read_str_items (L.take t) l.length (min p t) =
      some (v, min (p + (strListPayload l).length) t) := by
  induction l with
  | nil =>
    intro A R p _ _ _
    right
    exact ⟨[], by simp [read_str_items, strListPayload]⟩
  | cons s rest ih =>
    intro A R p hb hp hascii
    have hsl : pyStrLen s = s.length := hascii s (by simp)
    have hlen : (strListPayload (s :: rest)).length =
        s.length + 1 + (strListPayload rest).length := by
      simp [strListPayload_cons]
      omega
    have h1 := read_str_trunc L A s (strListPayload rest ++ R) t p
      (by simp [hb, strListPayload_cons, hsl]) hp ht
    rcases h1 with h1 | ⟨v, h1⟩
    · left
      simp [read_str_items, h1]
    · have h2 := ih (A ++ (pyStrLen s :: s)) R (p + 1 + s.length)
        (by simp [hb, strListPayload_cons])
        (by simp [hp, hsl]; omega)
        (fun x hx => hascii x (by simp [hx]))
      rcases h2 with h2 | ⟨w, h2⟩
      · left
        simp [read_str_items, h1, h2]
      · right
        refine ⟨v :: w, ?_⟩
        simp only [List.length_cons, read_str_items, h1, h2]
        rw [show min (p + 1 + s.length + (strListPayload rest).length) t =
          min (p + (strListPayload (s :: rest)).length) t from by rw [hlen]; omega]

theorem read_str_list_trunc (L A R : List Nat) (l : List (List Nat)) (t p : Nat)
    (hb : L = A ++ (l.length :: strListPayload l) ++ R) (hp : p = A.length)
    (ht : t ≤ L.length) (hascii : ∀ s ∈ l, pyStrLen s = s.length) :
    read_str_list (L.take t) (min p t) = none ∨
    ∃ v, read_str_list (L.take t) (min p t) =
      some (v, min (p + 1 + (strListPayload l).length) t) := by
  rcases le_or_lt t p with h | h
  · have hq : min p t = t := by omega
    have e1 : fread (L.take t) t 1 = ([], t) := fread_eof _ _ _ (by
      simp [take_trunc_len L t ht])
    right
    refine ⟨[], ?_⟩
    rw [hq, show min (p + 1 + (strListPayload l).length) t = t from by omega]
    simp [read_str_list, e1, fromBytesLE, read_str_items]
  · have hq : min p t = p := by omega
    have e1 : fread (L.take t) p 1 = ([l.length], p + 1) :=
      fread_trunc_head L A l.length (strListPayload l ++ R) t p (by simp [hb])
        hp h ht
    have h2 := read_str_items_trunc L l t ht (A ++ [l.length]) R (p + 1)
      (by simp [hb]) (by simp [hp]) hascii
    have hq1 : min (p + 1) t = p + 1 := by omega
    rw [hq1] at h2
    rw [hq]
    rcases h2 with h2 | ⟨v, h2⟩
    · left
      simp [read_str_list, e1, fromBytesLE_single, h2]
    · right
      refine ⟨v, ?_⟩
      simp only [read_str_list, e1, fromBytesLE_single, h2]

theorem read_array_items_trunc (T : List Nat) (sz t : Nat) (hT : T.length = t)
    (n : Nat) :
    ∀ q, q ≤ t → (read_array_items T sz n q).2 = min (q + 4 * n) t := by
  induction n with
  | zero =>
    intro q hq
    simp [read_array_items]
    omega
  | succ n ih =>
    intro q hq
    have e1 : (fread T q 4).2 = min (q + 4) t := by
      rw [fread_snd T q 4 (by omega), hT]
    simp only [read_array_items, e1]
    rw [ih (min (q + 4) t) (by omega)]
    omega

theorem fread_trunc_exact (L A D Rx : List Nat) (t p n : Nat)
    (hb : L = A ++ (D ++ Rx)) (hp : p = A.length) (hn : D.length = n)
    (hpt : p + n ≤ t) (ht : t ≤ L.length) :
    fread (L.take t) p n = (D, p + n) := by
  have hdrop : (L.take t).drop p = (D ++ Rx).take (t - p) := by
    rw [List.drop_take]
    congr 1
    rw [hb, hp]
    exact List.drop_left A (D ++ Rx)
  have htk : ((D ++ Rx).take (t - p)).take n = D := by
    rw [List.take_take, show min n (t - p) = n from by omega]
    exact List.take_left' hn
  simp only [fread, hdrop, htk, hn]

theorem read_array_trunc (L A R items : List Nat) (t p : Nat)
    (hb : L = A ++ (toBytesLE 2 items.length ++ [76] ++ arrayItemsBytes items) ++ R)
    (hp : p = A.length) (hn : items.length ≤ 65535) (ht : t ≤ L.length) :
    read_array (L.take t) (min p t) = none ∨
    ∃ a, read_array (L.take t) (min p t) =
      some (a, min (p + 3 + 4 * items.length) t) := by
  have hTlen : (L.take t).length = t := take_trunc_len L t ht
  rcases lt_or_ge t (p + 3) with h | h
  · have e1 : (fread (L.take t) (min p t) 2).2 = t := by
      rw [fread_snd _ _ _ (by omega), hTlen]
      omega
    have e2 : fread (L.take t) t 1 = ([], t) := fread_eof _ _ _ (by omega)
    left
    simp only [read_array, e1, e2]
  · have hq : min p t = p := by omega
    have e1 : fread (L.take t) p 2 = (toBytesLE 2 items.length, p + 2) :=
      fread_trunc_exact L A (toBytesLE 2 items.length)
        ([76] ++ arrayItemsBytes items ++ R) t p 2 (by simp [hb])
        hp (toBytesLE_length 2 items.length) (by omega) ht
    have e2 : fread (L.take t) (p + 2) 1 = ([76], p + 3) := by
      have := fread_trunc_exact L (A ++ toBytesLE 2 items.length) [76]
        (arrayItemsBytes items ++ R) t (p + 2) 1 (by simp [hb])
        (by simp [hp, toBytesLE_length]) rfl (by omega) ht
      simpa using this
    have hc : fromBytesLE (toBytesLE 2 items.length) = items.length := by
      rw [fromBytesLE_toBytesLE]
      exact Nat.mod_eq_of_lt (Nat.lt_of_le_of_lt hn (by norm_num))
    have e3 : (read_array_items (L.take t) 4 items.length (p + 3)).2 =
        min (p + 3 + 4 * items.length) t :=
      read_array_items_trunc (L.take t) 4 t hTlen items.length (p + 3) (by omega)
    right
    refine ⟨⟨76, (read_array_items (L.take t) 4 items.length (p + 3)).1⟩, ?_⟩
    rw [hq]
    simp only [read_array, e1, e2, hc,
      show typecodeSize 76 = some 4 from by decide, e3]

/-- Decoding any proper prefix of the encoded field region of a valid store
fails: the reads stay in lockstep with the full parse until the truncation
point, after which every read returns short, so either a string read hits
invalid UTF-8, the array tag read comes back empty, or — at the latest — the
footer read returns fewer than 3 bytes and the footer check raises. -/
theorem fromFlashBytes_trunc (c self : EnvelopeConfig) (rb t : Nat)
    (hv : ValidStore c) (ht : t ≤ (encFieldsFrom rb c).length) :
    ((fromFlashBytes self ((encFieldsFrom rb c).take t)).2).isSome = true := by
  obtain ⟨hfreq, hnlen, hnascii, hpwm, htach, hduty, hcnt, hnames, hina, hads,
    htc, hilen, hival⟩ := hv
  have hname : pyStrLen c.name = c.name.length := pyStrLen_ascii c.name hnascii
  have hnamesl : ∀ s ∈ c.pwmNames, pyStrLen s = s.length := fun s hs =>
    pyStrLen_ascii s (hnames s hs).2
  have hLlen : (encFieldsFrom rb c).length =
      8 + 1 + c.name.length + 1 + c.pwmMap.length + 1 + c.tachMap.length + 1 +
      c.pwmDutyCycles.length + 1 + (strListPayload c.pwmNames).length + 1 +
      c.inaSettings.length + 3 + 4 * c.i2cSettings.items.length + 1 +
      c.adsSettings.length := by
    simp [encFieldsFrom, toBytesLE_length, arrayItemsBytes_length]
    omega
  rcases lt_or_ge t 4 with h4 | h4
  · obtain ⟨tail, htail⟩ : ∃ x, encFieldsFrom rb c = 146 :: 0 :: rb :: 2 :: x :=
      ⟨_, rfl⟩
    interval_cases t <;> simp [htail, fromFlashBytes, fread, List.take]
  · have hTlen : ((encFieldsFrom rb c).take t).length = t :=
      take_trunc_len _ t ht
    obtain ⟨tail, htail⟩ : ∃ x, encFieldsFrom rb c = 146 :: 0 :: rb :: 2 :: x :=
      ⟨_, rfl⟩
    have h0 : fread ((encFieldsFrom rb c).take t) 0 4 = ([146, 0, rb, 2], 4) := by
      have htk : ((encFieldsFrom rb c).take t).take 4 = [146, 0, rb, 2] := by
        rw [List.take_take, show min 4 t = 4 from by omega, htail]
        rfl
      simp only [fread, List.drop_zero, htk]
      rfl
    have e1 : (fread ((encFieldsFrom rb c).take t) 4 4).2 = min 8 t := by
      have := fread_snd ((encFieldsFrom rb c).take t) 4 4 (by rw [hTlen]; omega)
      rw [hTlen] at this
      simpa using this
    have hs := read_str_trunc (encFieldsFrom rb c)
      ([146, 0, rb, 2] ++ toBytesLE 4 c.freq) c.name
      ((c.pwmMap.length :: c.pwmMap) ++ (c.tachMap.length :: c.tachMap) ++
        (c.pwmDutyCycles.length :: c.pwmDutyCycles) ++
        (c.pwmNames.length :: strListPayload c.pwmNames) ++
        (c.inaSettings.length :: c.inaSettings) ++
        (toBytesLE 2 c.i2cSettings.items.length ++ [76] ++
          arrayItemsBytes c.i2cSettings.items) ++
        (c.adsSettings.length :: c.adsSettings)) t 8
      (by simp [encFieldsFrom, List.append_assoc, hname])
      (by simp [toBytesLE_length]) ht
    rcases hs with hs | ⟨nv, hs⟩
    · simp [fromFlashBytes, h0, e1, hs]
    · set q2 := 8 + 1 + c.name.length with hq2
      have e3 : (read_bytearray ((encFieldsFrom rb c).take t) (min q2 t)).2 =
          min (q2 + 1 + c.pwmMap.length) t :=
        read_bytearray_trunc (encFieldsFrom rb c)
          ([146, 0, rb, 2] ++ toBytesLE 4 c.freq ++ (pyStrLen c.name :: c.name))
          c.pwmMap
          ((c.tachMap.length :: c.tachMap) ++
            (c.pwmDutyCycles.length :: c.pwmDutyCycles) ++
            (c.pwmNames.length :: strListPayload c.pwmNames) ++
            (c.inaSettings.length :: c.inaSettings) ++
            (toBytesLE 2 c.i2cSettings.items.length ++ [76] ++
              arrayItemsBytes c.i2cSettings.items) ++
            (c.adsSettings.length :: c.adsSettings)) t q2
          (by simp [encFieldsFrom, List.append_assoc])
          (by rw [hq2]; simp [toBytesLE_length, hname]; omega) ht
      set q3 := q2 + 1 + c.pwmMap.length with hq3
      have e4 : (read_bytearray ((encFieldsFrom rb c).take t) (min q3 t)).2 =
          min (q3 + 1 + c.tachMap.length) t :=
        read_bytearray_trunc (encFieldsFrom rb c)
          ([146, 0, rb, 2] ++ toBytesLE 4 c.freq ++ (pyStrLen c.name :: c.name) ++
            (c.pwmMap.length :: c.pwmMap))
          c.tachMap
          ((c.pwmDutyCycles.length :: c.pwmDutyCycles) ++
            (c.pwmNames.length :: strListPayload c.pwmNames) ++
            (c.inaSettings.length :: c.inaSettings) ++
            (toBytesLE 2 c.i2cSettings.items.length ++ [76] ++
              arrayItemsBytes c.i2cSettings.items) ++
            (c.adsSettings.length :: c.adsSettings)) t q3
          (by simp [encFieldsFrom, List.append_assoc])
          (by rw [hq3, hq2]; simp [toBytesLE_length, hname]; omega) ht
      set q4 := q3 + 1 + c.tachMap.length with hq4
      have e5 : (read_bytearray ((encFieldsFrom rb c).take t) (min q4 t)).2 =
          min (q4 + 1 + c.pwmDutyCycles.length) t :=
        read_bytearray_trunc (encFieldsFrom rb c)
          ([146, 0, rb, 2] ++ toBytesLE 4 c.freq ++ (pyStrLen c.name :: c.name) ++
            (c.pwmMap.length :: c.pwmMap) ++ (c.tachMap.length :: c.tachMap))
          c.pwmDutyCycles
          ((c.pwmNames.length :: strListPayload c.pwmNames) ++
            (c.inaSettings.length :: c.inaSettings) ++
            (toBytesLE 2 c.i2cSettings.items.length ++ [76] ++
              arrayItemsBytes c.i2cSettings.items) ++
            (c.adsSettings.length :: c.adsSettings)) t q4
          (by simp [encFieldsFrom, List.append_assoc])
          (by rw [hq4, hq3, hq2]; simp [toBytesLE_length, hname]; omega) ht
      set q5 := q4 + 1 + c.pwmDutyCycles.length with hq5
      have hl := read_str_list_trunc (encFieldsFrom rb c)
        ([146, 0, rb, 2] ++ toBytesLE 4 c.freq ++ (pyStrLen c.name :: c.name) ++
          (c.pwmMap.length :: c.pwmMap) ++ (c.tachMap.length :: c.tachMap) ++
          (c.pwmDutyCycles.length :: c.pwmDutyCycles))
        ((c.inaSettings.length :: c.inaSettings) ++
          (toBytesLE 2 c.i2cSettings.items.length ++ [76] ++
            arrayItemsBytes c.i2cSettings.items) ++
          (c.adsSettings.length :: c.adsSettings))
        c.pwmNames t q5
        (by simp [encFieldsFrom, List.append_assoc])
        (by rw [hq5, hq4, hq3, hq2]; simp [toBytesLE_length, hname]; omega) ht
        hnamesl
      rcases hl with hl | ⟨lv, hl⟩
      · simp [fromFlashBytes, h0, e1, hs, e3, e4, e5, hl]
      · set q6 := q5 + 1 + (strListPayload c.pwmNames).length with hq6
        have e7 : (read_bytearray ((encFieldsFrom rb c).take t) (min q6 t)).2 =
            min (q6 + 1 + c.inaSettings.length) t :=
          read_bytearray_trunc (encFieldsFrom rb c)
            ([146, 0, rb, 2] ++ toBytesLE 4 c.freq ++ (pyStrLen c.name :: c.name) ++
              (c.pwmMap.length :: c.pwmMap) ++ (c.tachMap.length :: c.tachMap) ++
              (c.pwmDutyCycles.length :: c.pwmDutyCycles) ++
              (c.pwmNames.length :: strListPayload c.pwmNames))
            c.inaSettings
            ((toBytesLE 2 c.i2cSettings.items.length ++ [76] ++
                arrayItemsBytes c.i2cSettings.items) ++
              (c.adsSettings.length :: c.adsSettings)) t q6
            (by simp [encFieldsFrom, List.append_assoc])
            (by rw [hq6, hq5, hq4, hq3, hq2]; simp [toBytesLE_length, hname]; omega)
            ht
        set q7 := q6 + 1 + c.inaSettings.length with hq7
        have ha := read_array_trunc (encFieldsFrom rb c)
          ([146, 0, rb, 2] ++ toBytesLE 4 c.freq ++ (pyStrLen c.name :: c.name) ++
            (c.pwmMap.length :: c.pwmMap) ++ (c.tachMap.length :: c.tachMap) ++
            (c.pwmDutyCycles.length :: c.pwmDutyCycles) ++
            (c.pwmNames.length :: strListPayload c.pwmNames) ++
            (c.inaSettings.length :: c.inaSettings))
          ((c.adsSettings.length :: c.adsSettings))
          c.i2cSettings.items t q7
          (by simp [encFieldsFrom, List.append_assoc])
          (by rw [hq7, hq6, hq5, hq4, hq3, hq2]; simp [toBytesLE_length, hname]
              omega)
          hilen ht
        rcases ha with ha | ⟨av, ha⟩
        · simp [fromFlashBytes, h0, e1, hs, e3, e4, e5, hl, e7, ha]
        · set q8 := q7 + 3 + 4 * c.i2cSettings.items.length with hq8
          have e9 : (read_bytearray ((encFieldsFrom rb c).take t) (min q8 t)).2 =
              min (q8 + 1 + c.adsSettings.length) t :=
            read_bytearray_trunc (encFieldsFrom rb c)
              ([146, 0, rb, 2] ++ toBytesLE 4 c.freq ++ (pyStrLen c.name :: c.name) ++
                (c.pwmMap.length :: c.pwmMap) ++ (c.tachMap.length :: c.tachMap) ++
                (c.pwmDutyCycles.length :: c.pwmDutyCycles) ++
                (c.pwmNames.length :: strListPayload c.pwmNames) ++
                (c.inaSettings.length :: c.inaSettings) ++
                (toBytesLE 2 c.i2cSettings.items.length ++ [76] ++
                  arrayItemsBytes c.i2cSettings.items))
              c.adsSettings [] t q8
              (by simp [encFieldsFrom, List.append_assoc])
              (by rw [hq8, hq7, hq6, hq5, hq4, hq3, hq2]
                  simp [toBytesLE_length, hname, arrayItemsBytes_length]
                  omega)
              ht
          have hq9t : t ≤ q8 + 1 + c.adsSettings.length := hLlen ▸ ht
          have hminq9 : min (q8 + 1 + c.adsSettings.length) t = t := by omega
          have efoot : fread ((encFieldsFrom rb c).take t) t 3 = ([], t) :=
            fread_eof _ _ _ (by omega)
          simp [fromFlashBytes, h0, e1, hs, e3, e4, e5, hl, e7, ha, e9,
            hminq9, efoot, utf8Check]

/-- C4: truncating a valid encoded buffer at any offset strictly before the
footer makes decode fail — it never completes successfully with wrong field
data. (The escaping exception is the bad-footer `ConfigError` in most cases,
an `IndexError` for truncations inside the 4-byte header, a `UnicodeError`
for a string field cut inside a multi-byte read, or the `array("")` error
when the type tag itself is cut off.) -/
theorem C4_truncation (c self : EnvelopeConfig) (enc : List Nat) (t : Nat)
    (hv : ValidStore c) (henc : toFlashBytes c = some enc)
    (ht : t < enc.length - 3) :
    ((fromFlashBytes self (enc.take t)).2).isSome = true := by
  rw [toFlashBytes_eq c hv] at henc
  injection henc with henc
  subst henc
  have hlen : (encFieldsFrom 0 c ++ [0, 0, 66]).length =
      (encFieldsFrom 0 c).length + 3 := by simp
  have ht' : t ≤ (encFieldsFrom 0 c).length := by omega
  have htake : (encFieldsFrom 0 c ++ [0, 0, 66]).take t =
      (encFieldsFrom 0 c).take t :=
    List.take_append_of_le_length ht'
  rw [htake]
  exact fromFlashBytes_trunc c self 0 t hv ht'

theorem C4_truncation_witness :
    ((fromFlashBytes blankStore
      (((toFlashBytes defaultConfig).getD []).take 50)).2).isSome = true :=
  C4_truncation defaultConfig blankStore ((toFlashBytes defaultConfig).getD [])
    50 (by decide) (by decide) (by decide)
